import Mathlib

/-
Verification of the odsgenerator core (src/odsgenerator/odsgenerator.py).

The input description language (the generic nodes produced by the JSON/YAML
readers) is embedded as the inductive type Node.  The parsing pipeline of the
ODSGenerator class is embedded as pure functions threading an explicit state:

  - split               (ODSGenerator.split, lines 742-760)
  - guessStyle          (ODSGenerator.guess_style, lines 714-740)
  - insertStyleF        (ODSGenerator.insert_style, lines 703-712, fuelled)
  - typeDefault and resolveCellStyle (ODSGenerator.parse_cell, lines 800-814)
  - storeSpannedCell    (ODSGenerator.store_spanned_cell, lines 875-882)
  - parseSpanned        (ODSGenerator.parse_spanned, lines 863-873)
  - parseCell, parseRow, parseTable, parse (lines 762-824)
  - odsGenerator        (ODSGenerator.__init__ plus the module-level
                         DEFAULTS_DICT aliasing, lines 626-672)

Fallible operations (Python exceptions such as TypeError on malformed input)
are modelled with Option: a parse that would raise returns none.  The document
writer collaborator (the odfdo library) is modelled through the observable
data handed to it: the produced tabs, rows and cells, the ordered list of
style insertion calls, and the span regions applied per tab.
-/

namespace OdsGen

/-- A generic description node, the value universe produced by the JSON/YAML
input readers: null, booleans, integers, floats, strings, sequences and keyed
mappings.  Floats never participate in arithmetic in the parser, only in type
dispatch, so their payload is opaque.  The nOther constructor stands for the
remaining scalar types a YAML reader can produce and the writer accepts
(dates, times, ...), which the parser treats uniformly as "other". -/
inductive Node where
  | nNull
  | nBool (b : Bool)
  | nInt (i : Int)
  | nFloat (f : Int)
  | nStr (s : String)
  | nOther (tag : String)
  | nList (xs : List Node)
  | nDict (m : List (String × Node))

/-- An options mapping: the keyed part of a description node.  Python dicts
have unique keys; lookup takes the first matching entry. -/
abbrev OptMap := List (String × Node)

def lookupOpt (m : OptMap) (k : String) : Option Node :=
  (m.find? (fun e => e.1 == k)).map (fun e => e.2)

def optGetD (m : OptMap) (k : String) (d : Node) : Node :=
  (lookupOpt m k).getD d

def hasKey (m : OptMap) (k : String) : Bool :=
  (lookupOpt m k).isSome

/-- Removal of a key from a mapping, as performed by dict.pop. -/
def eraseKey (m : OptMap) (k : String) : OptMap :=
  m.filter (fun e => e.1 ≠ k)

def isDict : Node → Bool
  | Node.nDict _ => true
  | _ => false

def isScalar : Node → Bool
  | Node.nList _ => false
  | Node.nDict _ => false
  | _ => true

/-- Python truthiness of a description node. -/
def nodeTruthy : Node → Bool
  | Node.nNull => false
  | Node.nBool b => b
  | Node.nInt i => i ≠ 0
  | Node.nFloat f => f ≠ 0
  | Node.nStr s => s ≠ ""
  | Node.nOther _ => true
  | Node.nList xs => !xs.isEmpty
  | Node.nDict m => !m.isEmpty

/-- ODSGenerator.split (lines 742-760): if the item is a dict, pop the value
under the key (an empty list when absent) and return the remaining mapping;
otherwise the item itself is the content and the options are empty. -/
def split : Node → String → Node × OptMap
  | Node.nDict m, key => (optGetD m key (Node.nList []), eraseKey m key)
  | n, _ => (n, [])

/-- Python iteration over a description node, as used by the for loops of
parse, parse_table and parse_row: lists yield their elements, strings their
characters, dicts their keys; other values are not iterable (TypeError). -/
def asList : Node → Option (List Node)
  | Node.nList xs => some xs
  | Node.nStr s => some (s.data.map (fun c => Node.nStr (String.mk [c])))
  | Node.nDict m => some (m.map (fun kv => Node.nStr kv.1))
  | _ => none

/-- A style element as the catalog stores it: the family the writer derives
from the markup and the attribute mapping of the root element, used for
dependency discovery. -/
structure StyleDef where
  family : String
  attrs : List (String × String)
deriving DecidableEq

/-- The style catalog (self.styles_elements): a name-to-definition mapping.
New definitions are prepended and lookup takes the first match, so a
redefinition shadows the prior entry, as dict assignment does. -/
abbrev Catalog := List (String × StyleDef)

def lookupStyle (cat : Catalog) (name : String) : Option StyleDef :=
  (cat.find? (fun e => e.1 == name)).map (fun e => e.2)

/-- Attribute values whose key ends in "style-name", the dependencies walked
by insert_style (lines 710-712). -/
def depKeys (st : StyleDef) : List String :=
  (st.attrs.filter (fun kv => "style-name".data.isSuffixOf kv.1.data)).map (fun kv => kv.2)

def depKeysOf (cat : Catalog) (m : String) : List String :=
  match lookupStyle cat m with
  | some st => depKeys st
  | none => []

/-- The insertion state: the set of names already inserted for this document
(self.used_styles, as a duplicate-free list) and the ordered sequence of
insertion calls handed to the document writer (self.doc.insert_style). -/
structure InsSt where
  used : List String
  calls : List String
deriving DecidableEq

/-- ODSGenerator.insert_style (lines 703-712), with an explicit recursion
budget: no-op if the name is falsy, already used, or unknown; otherwise call
the writer, mark the name used, and recursively insert every style referenced
by an attribute whose key ends in "style-name". -/
def insertStyleF (cat : Catalog) : Nat → InsSt → String → InsSt
  | 0, s, _ => s
  | fuel+1, s, name =>
    if name = "" then s
    else if name ∈ s.used then s
    else
      match lookupStyle cat name with
      | none => s
      | some st =>
        (depKeys st).foldl (fun a v => insertStyleF cat fuel a v)
          { used := name :: s.used, calls := s.calls ++ [name] }

/-- The dependency fold of insert_style, as a standalone function. -/
def insertListF (cat : Catalog) (fuel : Nat) (s : InsSt) (vs : List String) : InsSt :=
  vs.foldl (fun a v => insertStyleF cat fuel a v) s

/-- The number of catalog names not yet inserted; it bounds the recursion
depth insert_style can reach, because a name is marked used before its
dependencies are walked. -/
def unusedCount (cat : Catalog) (used : List String) : Nat :=
  (((cat.map Prod.fst).toFinset).filter (fun m => m ∉ used)).card

/-- insert_style with the always-sufficient budget used by the pipeline. -/
def insertStyle (cat : Catalog) (s : InsSt) (name : String) : InsSt :=
  insertStyleF cat (cat.length + 1) s name

/-- insert_style applied to the optional result of style resolution: Python
passes None or a name, and the falsy guard makes None a no-op. -/
def insertStyleOpt (cat : Catalog) (s : InsSt) : Option String → InsSt
  | none => s
  | some n => insertStyle cat s n

/-- Whether a name resolves in the catalog with the requested family. -/
def isMatch (cat : Catalog) (family : String) (name : String) : Bool :=
  match lookupStyle cat name with
  | some st => st.family == family
  | none => false

/-- Whether a listed style entry is a truthy string resolving with the
requested family.  Non-string entries never hit a catalog key. -/
def nodeIsMatch (cat : Catalog) (family : String) : Node → Bool
  | Node.nStr s => (s ≠ "" : Bool) && isMatch cat family s
  | _ => false

/-- The "style" option normalised to a list (lines 728-730): absent means an
empty list, a non-list value is wrapped into a singleton. -/
def styleListOf (opt : OptMap) : List Node :=
  match lookupOpt opt "style" with
  | none => []
  | some (Node.nList xs) => xs
  | some v => [v]

/-- The scan of the listed style names (lines 731-735): skip falsy entries,
return the first truthy string whose catalog entry has the requested family. -/
def guessFrom (cat : Catalog) (family : String) : List Node → Option String
  | [] => none
  | n :: rest =>
    if nodeTruthy n then
      match n with
      | Node.nStr s => if isMatch cat family s then some s else guessFrom cat family rest
      | _ => guessFrom cat family rest
    else guessFrom cat family rest

/-- ODSGenerator.guess_style (lines 714-740).  The default may itself be the
result of an earlier resolution, hence Option; a falsy default is rejected by
the `if default` guard. -/
def guessStyle (cat : Catalog) (opt : OptMap) (family : String)
    (default : Option String) : Option String :=
  match guessFrom cat family (styleListOf opt) with
  | some s => some s
  | none =>
    match default with
    | some d => if d ≠ "" && isMatch cat family d then some d else none
    | none => none

/-- The six default style names (DEFAULTS_DICT, lines 626-633). -/
structure Defaults where
  style_table_row : String
  style_table_cell : String
  style_str : String
  style_int : String
  style_float : String
  style_other : String
deriving DecidableEq

/-- The module-level DEFAULTS_DICT constant (lines 626-633). -/
def DEFAULTS_DICT : Defaults :=
  { style_table_row := "default_table_row"
    style_table_cell := ""
    style_str := "left"
    style_int := "right"
    style_float := "right"
    style_other := "left" }

/-- One step of dict.update on the defaults record.  Only the six known keys
are observable (unknown keys are stored but never read); a non-string value
under a known key is not modelled (the pipeline would later use it as a style
name that can never match). -/
def updateOne (d : Defaults) (kv : String × Node) : Option Defaults :=
  match kv.1, kv.2 with
  | "style_table_row", Node.nStr s => some { d with style_table_row := s }
  | "style_table_cell", Node.nStr s => some { d with style_table_cell := s }
  | "style_str", Node.nStr s => some { d with style_str := s }
  | "style_int", Node.nStr s => some { d with style_int := s }
  | "style_float", Node.nStr s => some { d with style_float := s }
  | "style_other", Node.nStr s => some { d with style_other := s }
  | "style_table_row", _ => none
  | "style_table_cell", _ => none
  | "style_str", _ => none
  | "style_int", _ => none
  | "style_float", _ => none
  | "style_other", _ => none
  | _, _ => some d

/-- self.defaults.update(opt.get(DEFAULTS, {})) (line 765): absent or empty
means no change, a dict overrides the keys it carries in order, and a truthy
non-mapping argument raises TypeError. -/
def updateDefaults (d : Defaults) : Option Node → Option Defaults
  | none => some d
  | some (Node.nDict m) => m.foldlM updateOne d
  | some n => if nodeTruthy n then none else some d

/-- Transcription of the DEFAULT_STYLES constant (lines 194-624): for every
entry, its name together with the family and the root-element attributes the
writer collaborator derives from the XML definition.  The number styles carry
the family "number", which never equals a requested table family. -/
def DEFAULT_STYLES : Catalog := [
  ("default_table_row", ⟨"table-row", [("style:family", "table-row")]⟩),
  ("table_row_1cm", ⟨"table-row", [("style:family", "table-row")]⟩),
  ("bold", ⟨"table-cell",
    [("style:family", "table-cell"), ("style:parent-style-name", "Default")]⟩),
  ("bold_center", ⟨"table-cell",
    [("style:family", "table-cell"), ("style:parent-style-name", "Default")]⟩),
  ("left", ⟨"table-cell",
    [("style:family", "table-cell"), ("style:parent-style-name", "Default")]⟩),
  ("right", ⟨"table-cell",
    [("style:family", "table-cell"), ("style:parent-style-name", "Default")]⟩),
  ("center", ⟨"table-cell",
    [("style:family", "table-cell"), ("style:parent-style-name", "Default")]⟩),
  ("decimal1", ⟨"number", []⟩),
  ("cell_decimal1", ⟨"table-cell",
    [("style:family", "table-cell"), ("style:parent-style-name", "Default"),
     ("style:data-style-name", "decimal1")]⟩),
  ("decimal2", ⟨"number", []⟩),
  ("cell_decimal2", ⟨"table-cell",
    [("style:family", "table-cell"), ("style:parent-style-name", "Default"),
     ("style:data-style-name", "decimal2")]⟩),
  ("decimal3", ⟨"number", []⟩),
  ("cell_decimal3", ⟨"table-cell",
    [("style:family", "table-cell"), ("style:parent-style-name", "Default"),
     ("style:data-style-name", "decimal3")]⟩),
  ("decimal4", ⟨"number", []⟩),
  ("cell_decimal4", ⟨"table-cell",
    [("style:family", "table-cell"), ("style:parent-style-name", "Default"),
     ("style:data-style-name", "decimal4")]⟩),
  ("decimal6", ⟨"number", []⟩),
  ("cell_decimal6", ⟨"table-cell",
    [("style:family", "table-cell"), ("style:parent-style-name", "Default"),
     ("style:data-style-name", "decimal6")]⟩),
  ("integer", ⟨"number", []⟩),
  ("integer_no_zero", ⟨"number", []⟩),
  ("grid_06pt", ⟨"table-cell",
    [("style:family", "table-cell"), ("style:parent-style-name", "Default")]⟩),
  ("bold_left_bg_gray_grid_06pt", ⟨"table-cell",
    [("style:family", "table-cell"), ("style:parent-style-name", "Default")]⟩),
  ("bold_right_bg_gray_grid_06pt", ⟨"table-cell",
    [("style:family", "table-cell"), ("style:parent-style-name", "Default")]⟩),
  ("bold_center_bg_gray_grid_06pt", ⟨"table-cell",
    [("style:family", "table-cell"), ("style:parent-style-name", "Default")]⟩),
  ("bold_left_grid_06pt", ⟨"table-cell",
    [("style:family", "table-cell"), ("style:parent-style-name", "Default")]⟩),
  ("bold_right_grid_06pt", ⟨"table-cell",
    [("style:family", "table-cell"), ("style:parent-style-name", "Default")]⟩),
  ("bold_center_grid_06pt", ⟨"table-cell",
    [("style:family", "table-cell"), ("style:parent-style-name", "Default")]⟩),
  ("left_grid_06pt", ⟨"table-cell",
    [("style:family", "table-cell"), ("style:parent-style-name", "Default")]⟩),
  ("right_grid_06pt", ⟨"table-cell",
    [("style:family", "table-cell"), ("style:parent-style-name", "Default")]⟩),
  ("center_grid_06pt", ⟨"table-cell",
    [("style:family", "table-cell"), ("style:parent-style-name", "Default")]⟩),
  ("integer_grid_06pt", ⟨"table-cell",
    [("style:family", "table-cell"), ("style:parent-style-name", "Default"),
     ("style:data-style-name", "integer")]⟩),
  ("integer_no_zero_grid_06pt", ⟨"table-cell",
    [("style:family", "table-cell"), ("style:parent-style-name", "Default"),
     ("style:data-style-name", "integer_no_zero")]⟩),
  ("center_integer_no_zero_grid_06pt", ⟨"table-cell",
    [("style:family", "table-cell"), ("style:parent-style-name", "Default"),
     ("style:data-style-name", "integer_no_zero")]⟩),
  ("decimal1_grid_06pt", ⟨"table-cell",
    [("style:family", "table-cell"), ("style:parent-style-name", "Default"),
     ("style:data-style-name", "decimal1")]⟩),
  ("decimal2_grid_06pt", ⟨"table-cell",
    [("style:family", "table-cell"), ("style:parent-style-name", "Default"),
     ("style:data-style-name", "decimal2")]⟩),
  ("decimal3_grid_06pt", ⟨"table-cell",
    [("style:family", "table-cell"), ("style:parent-style-name", "Default"),
     ("style:data-style-name", "decimal3")]⟩),
  ("decimal4_grid_06pt", ⟨"table-cell",
    [("style:family", "table-cell"), ("style:parent-style-name", "Default"),
     ("style:data-style-name", "decimal4")]⟩),
  ("decimal6_grid_06pt", ⟨"table-cell",
    [("style:family", "table-cell"), ("style:parent-style-name", "Default"),
     ("style:data-style-name", "decimal6")]⟩)]

/-- The value-type dispatch of parse_cell (lines 805-812).  The integer test
is a Python isinstance check and bool is a subtype of int, so booleans take
the integer branch; the final else covers every remaining value. -/
def typeDefault (d : Defaults) : Node → String
  | Node.nNull => d.style_str
  | Node.nStr _ => d.style_str
  | Node.nBool _ => d.style_int
  | Node.nInt _ => d.style_int
  | Node.nFloat _ => d.style_float
  | _ => d.style_other

/-- The default style a cell starts from (lines 803-812): the inherited cell
style seed when truthy, else the value-type-driven default. -/
def cellDefault (d : Defaults) (seed : Option String) (v : Node) : String :=
  match seed with
  | some s => if s ≠ "" then s else typeDefault d v
  | none => typeDefault d v

/-- The style resolution performed for a cell (lines 802-813): split off the
value, compute the applicable default, then run guess_style on the cell
options with the cell family. -/
def resolveCellStyle (cat : Catalog) (d : Defaults) (seed : Option String)
    (cellContent : Node) : Option String :=
  guessStyle cat (split cellContent "value").2 "table-cell"
    (some (cellDefault d seed (split cellContent "value").1))

/-- Python int() on the option values store_spanned_cell reads; only the
conversions the description grammar produces are modelled, anything else
raises. -/
def toIntOpt : Node → Option Int
  | Node.nInt i => some i
  | Node.nBool b => some (if b then 1 else 0)
  | _ => none

/-- ODSGenerator.store_spanned_cell (lines 875-882): clamp both counts to at
least 1; when both clamped counts are below 2 record nothing, otherwise append
the inclusive rectangle from the cell coordinate. -/
def storeSpannedCell (spanned : List Node) (x y : Int) (opt : OptMap) :
    Option (List Node) := do
  let c ← toIntOpt (optGetD opt "colspanned" (Node.nInt 1))
  let r ← toIntOpt (optGetD opt "rowspanned" (Node.nInt 1))
  let colspan := max 1 c
  let rowspan := max 1 r
  if colspan < 2 ∧ rowspan < 2 then pure spanned
  else pure (spanned ++ [Node.nList [Node.nInt x, Node.nInt y,
    Node.nInt (x + colspan - 1), Node.nInt (y + rowspan - 1)]])

/-- ODSGenerator.parse_spanned (lines 863-873): the list of areas handed to
the writer for this tab.  A truthy span option is normalised to a list and
extended with the accumulated per-cell regions; otherwise only the
accumulated regions are applied. -/
def parseSpanned (spanned : List Node) (opt : OptMap) : List Node :=
  match lookupOpt opt "span" with
  | some sv =>
    if nodeTruthy sv then
      (match sv with
       | Node.nList xs => xs
       | v => [v]) ++ spanned
    else spanned
  | none => spanned

/-- The content of the caller-owned span list after parse_spanned, when the
"span" option of the tab is that list: span_opt.extend(self.spanned_cells)
(line 869) mutates the caller's list in place exactly when the list is truthy
(non-empty); a falsy option is replaced by the accumulated regions without
touching the caller's object (line 871). -/
def parseSpannedCallerList (callerSpan spanned : List Node) : List Node :=
  if nodeTruthy (Node.nList callerSpan) then callerSpan ++ spanned
  else callerSpan

/-- The "attr" option of a cell (lines 818-821): absent or falsy yields no
extra attributes, a truthy mapping yields its items, any other truthy value
raises when iterated. -/
def attrsOf (opt : OptMap) : Option (List (String × Node)) :=
  match lookupOpt opt "attr" with
  | none => some []
  | some a =>
    if nodeTruthy a then
      match a with
      | Node.nDict am => some am
      | _ => none
    else some []

/-- A produced cell, as handed to the document writer (lines 815-821). -/
structure OCell where
  value : Node
  style : Option String
  text : Option Node
  formula : Option Node
  attrs : List (String × Node)

/-- A produced row (line 794). -/
structure ORow where
  style : Option String
  cells : List OCell

/-- A produced tab: its name, rows in order, the raw width option recorded
for the width post-processing, and the span areas applied to the writer. -/
structure OTab where
  name : String
  rows : List ORow
  widthOpt : Option Node
  spans : List Node

/-- The per-parse mutable state of ODSGenerator (lines 664-672). -/
structure PState where
  defaults : Defaults
  cat : Catalog
  ins : InsSt
  spanned : List Node
  tabCounter : Nat

/-- ODSGenerator.parse_cell (lines 800-824). -/
def parseCell (st : PState) (x y : Int) (seed : Option String)
    (cellContent : Node) : Option (PState × OCell) :=
  match split cellContent "value" with
  | (value, opt) =>
    if isScalar value then
      let style := resolveCellStyle st.cat st.defaults seed cellContent
      match attrsOf opt with
      | none => none
      | some attrs =>
        let st1 : PState := { st with ins := insertStyleOpt st.cat st.ins style }
        let cell : OCell :=
          ⟨value, style, lookupOpt opt "text", lookupOpt opt "formula", attrs⟩
        if hasKey opt "colspanned" || hasKey opt "rowspanned" then
          match storeSpannedCell st1.spanned x y opt with
          | none => none
          | some sp => some ({ st1 with spanned := sp }, cell)
        else some (st1, cell)
    else none

/-- The cell loop of parse_row (lines 797-798); x counts append order. -/
def parseCells (y : Int) (seed : Option String) :
    PState → Int → List Node → Option (PState × List OCell)
  | st, _, [] => some (st, [])
  | st, x, c :: rest => do
    let p ← parseCell st x y seed c
    let q ← parseCells y seed p.1 (x + 1) rest
    pure (q.1, p.2 :: q.2)

/-- ODSGenerator.parse_row (lines 789-798): resolve and insert the row style
against the tab seed, re-resolve the cell seed, then append the cells. -/
def parseRow (st : PState) (y : Int) (tabRowStyle tabCellStyle : Option String)
    (rowContent : Node) : Option (PState × ORow) := do
  let p := split rowContent "row"
  let rowStyle := guessStyle st.cat p.2 "table-row" tabRowStyle
  let st1 : PState := { st with ins := insertStyleOpt st.cat st.ins rowStyle }
  let cellSeed := guessStyle st1.cat p.2 "table-cell" tabCellStyle
  let cells ← asList p.1
  let q ← parseCells y cellSeed st1 0 cells
  pure (q.1, ⟨rowStyle, q.2⟩)

/-- The row loop of parse_table (lines 783-784); y counts append order. -/
def parseRows (trs tcs : Option String) :
    PState → Int → List Node → Option (PState × List ORow)
  | st, _, [] => some (st, [])
  | st, y, r :: rest => do
    let p ← parseRow st y trs tcs r
    let q ← parseRows trs tcs p.1 (y + 1) rest
    pure (q.1, p.2 :: q.2)

/-- ODSGenerator.parse_table (lines 771-787): split off the rows, bump the
tab counter, name the tab, resolve the two per-tab style seeds from the
defaults record, reset the span accumulator, parse the rows, then apply the
width and span post-processing. -/
def parseTable (st : PState) (tableContent : Node) : Option (PState × OTab) := do
  let p := split tableContent "table"
  let n := st.tabCounter + 1
  let name ← match lookupOpt p.2 "name" with
    | none => some ("Tab " ++ toString n)
    | some (Node.nStr s) => some s
    | some _ => none
  let trs := guessStyle st.cat p.2 "table-row" (some st.defaults.style_table_row)
  let tcs := guessStyle st.cat p.2 "table-cell" (some st.defaults.style_table_cell)
  let st0 : PState := { st with tabCounter := n, spanned := [] }
  let rows ← asList p.1
  let q ← parseRows trs tcs st0 0 rows
  pure (q.1, ⟨name, q.2, lookupOpt p.2 "width", parseSpanned q.1.spanned p.2⟩)

/-- The tab loop of parse (lines 768-769). -/
def parseTables : PState → List Node → Option (PState × List OTab)
  | st, [] => some (st, [])
  | st, t :: rest => do
    let p ← parseTable st t
    let q ← parseTables p.1 rest
    pure (q.1, p.2 :: q.2)

/-- Loading of one user style definition (parse_styles, lines 691-701).  The
writer collaborator parses the markup into an element carrying a name, a
family and root attributes; that parsed element is represented directly in
the description as a mapping with "name", "family" and "attrs" entries
(malformed markup is anything else and raises). -/
def strPairs : List (String × Node) → Option (List (String × String))
  | [] => some []
  | (k, Node.nStr v) :: rest => (strPairs rest).map (fun l => (k, v) :: l)
  | _ => none

/-- Modelled interface of the writer collaborator Element.from_tag: yields
the element name together with its family and attribute map. -/
def elementFromTag : Node → Option (String × StyleDef)
  | Node.nDict m =>
    match lookupOpt m "name", lookupOpt m "family", lookupOpt m "attrs" with
    | some (Node.nStr nm), some (Node.nStr fam), some (Node.nDict am) =>
      (strPairs am).map (fun attrs => (nm, ⟨fam, attrs⟩))
    | _, _, _ => none
  | _ => none

def parseStyleItem (insert : Bool) (acc : Catalog × InsSt) (item : Node) :
    Option (Catalog × InsSt) :=
  match item with
  | Node.nDict m => do
    let parsed ← match lookupOpt m "definition" with
      | some dNode => elementFromTag dNode
      | none => none
    let name ← match lookupOpt m "name" with
      | none => some parsed.1
      | some v =>
        if nodeTruthy v then
          match v with
          | Node.nStr s => some s
          | _ => none
        else some parsed.1
    let cat1 : Catalog := (name, parsed.2) :: acc.1
    pure (cat1, if insert then insertStyle cat1 acc.2 name else acc.2)
  | _ => none

/-- ODSGenerator.parse_styles over the user-declared "styles" option
(lines 682-701 via line 767): absent or falsy is a no-op, a list of style
items is loaded in order with immediate insertion, anything else raises. -/
def parseUserStyles (cat : Catalog) (s : InsSt) : Option Node →
    Option (Catalog × InsSt)
  | none => some (cat, s)
  | some n =>
    if nodeTruthy n then
      match n with
      | Node.nList items => items.foldlM (parseStyleItem true) (cat, s)
      | _ => none
    else some (cat, s)

/-- ODSGenerator.parse (lines 762-769).  self.defaults is the module-level
DEFAULTS_DICT itself (line 668 binds the dict by reference), so the update of
line 765 writes through to the module constant: the function takes the
current module-level record and returns the updated one alongside the parsed
tabs. -/
def parse (moduleDefaults : Defaults) (content : Node) :
    Option (Defaults × PState × List OTab) := do
  let p := split content "body"
  let defaults ← updateDefaults moduleDefaults (lookupOpt p.2 "defaults")
  let cs ← parseUserStyles DEFAULT_STYLES ⟨[], []⟩ (lookupOpt p.2 "styles")
  let tabsNodes ← asList p.1
  let st0 : PState := ⟨defaults, cs.1, cs.2, [], 0⟩
  let q ← parseTables st0 tabsNodes
  pure (defaults, q.1, q.2)

/-- One run of ODSGenerator(content) observed from the module level: the
defaults record the next run will start from (the mutated DEFAULTS_DICT) and
the tabs handed to the writer. -/
def odsGenerator (moduleDefaults : Defaults) (content : Node) :
    Option (Defaults × List OTab) :=
  (parse moduleDefaults content).map (fun r => (r.1, r.2.2))

/-- A dependency value is handled with respect to a used set: it is falsy,
unknown to the catalog, or already inserted. -/
def depOk (cat : Catalog) (used : List String) (v : String) : Prop :=
  v = "" ∨ lookupStyle cat v = none ∨ v ∈ used

/-- The used set is closed under the existing style dependencies, except for
the names listed in E (whose dependency walk may still be in progress). -/
def ClosedExc (cat : Catalog) (used E : List String) : Prop :=
  ∀ m ∈ used, m ∉ E → ∀ v ∈ depKeysOf cat m, depOk cat used v

/-- Every inserted style has all its existing dependencies inserted. -/
def Closed (cat : Catalog) (used : List String) : Prop :=
  ClosedExc cat used []

instance (cat : Catalog) (used : List String) (v : String) : Decidable (depOk cat used v) := by
  unfold depOk; infer_instance

instance (cat : Catalog) (used E : List String) : Decidable (ClosedExc cat used E) := by
  unfold ClosedExc; infer_instance

instance (cat : Catalog) (used : List String) : Decidable (Closed cat used) := by
  unfold Closed; infer_instance

/-- The insertion-state invariant: the writer received exactly the used names
in insertion order, and no name twice. -/
def Good (s : InsSt) : Prop :=
  s.calls = s.used.reverse ∧ s.used.Nodup

instance (s : InsSt) : Decidable (Good s) := by
  unfold Good; infer_instance

/-- Projection of the cell values out of a bare row node. -/
def rowCellsOf : Node → List Node
  | Node.nList cs => cs
  | _ => []

/-- Projection of the row nodes out of a bare tab node. -/
def tabRowsOf : Node → List Node
  | Node.nList rs => rs
  | _ => []

def tabCellValues (t : Node) : List (List Node) :=
  (tabRowsOf t).map rowCellsOf

/-- A row written as a bare sequence of scalar values. -/
def bareRow : Node → Bool
  | Node.nList cs => cs.all isScalar
  | _ => false

/-- A tab written as a bare sequence of bare rows. -/
def bareTab : Node → Bool
  | Node.nList rs => rs.all bareRow
  | _ => false

/-- A document body written entirely as bare nested sequences. -/
def bareDocB (ts : List Node) : Bool :=
  ts.all bareTab

/-- The style of the first cell of the first row of the first tab of a parse
result. -/
def firstCellStyle (r : Option (Defaults × List OTab)) : Option String :=
  match r with
  | some (_, t :: _) =>
    match t.rows with
    | r0 :: _ =>
      match r0.cells with
      | c0 :: _ => c0.style
      | [] => none
    | [] => none
  | _ => none

/-- A document whose top-level options override the default string style. -/
def docWithOverride : Node :=
  Node.nDict [("body", Node.nList []),
    ("defaults", Node.nDict [("style_str", Node.nStr "center")])]

/-- A minimal plain document: one tab, one row, one string cell. -/
def plainDoc : Node :=
  Node.nList [Node.nList [Node.nList [Node.nStr "a"]]]

/-- DEFAULTS_DICT after the first parse of docWithOverride has written its
override through the shared reference. -/
def leakedDefaults : Defaults :=
  { DEFAULTS_DICT with style_str := "center" }

/-- A catalog whose dependency graph is a two-cycle. -/
def cycCatalog : Catalog :=
  [("A", ⟨"table-cell", [("style:parent-style-name", "B")]⟩),
   ("B", ⟨"table-cell", [("style:parent-style-name", "A")]⟩)]

/-- A small catalog with one row-family and one cell-family style. -/
def c2Catalog : Catalog :=
  [("r1", ⟨"table-row", []⟩), ("c1", ⟨"table-cell", []⟩)]

/-- A small catalog where style A references the data style B. -/
def c3Catalog : Catalog :=
  [("A", ⟨"table-cell", [("style:data-style-name", "B")]⟩),
   ("B", ⟨"number", []⟩)]

/-- The tab list of the round-trip scenario of the spec. -/
def sampleTabs : List Node :=
  [Node.nList [Node.nList [Node.nStr "a", Node.nStr "b", Node.nStr "c"],
    Node.nList [Node.nInt 10, Node.nInt 20, Node.nInt 30]]]

/-- A parse state over an empty catalog, in which no style name resolves. -/
def emptyCatState : PState :=
  ⟨DEFAULTS_DICT, [], ⟨[], []⟩, [], 0⟩

theorem insertListF_nil (cat : Catalog) (f : Nat) (s : InsSt) :
    insertListF cat f s [] = s := rfl

theorem insertListF_cons (cat : Catalog) (f : Nat) (s : InsSt) (v : String)
    (vs : List String) :
    insertListF cat f s (v :: vs) = insertListF cat f (insertStyleF cat f s v) vs := rfl

theorem insertStyleF_noop (cat : Catalog) (f : Nat) (s : InsSt) (n : String)
    (h : n = "" ∨ n ∈ s.used ∨ lookupStyle cat n = none) :
    insertStyleF cat (f + 1) s n = s := by
  by_cases h1 : n = ""
  · simp [insertStyleF, h1]
  by_cases h2 : n ∈ s.used
  · simp [insertStyleF, h1, h2]
  have h3 : lookupStyle cat n = none := by tauto
  simp [insertStyleF, h1, h2, h3]

theorem insertStyleF_succ_insert (cat : Catalog) (f : Nat) (s : InsSt) (n : String)
    (st : StyleDef) (h1 : ¬ n = "") (h2 : n ∉ s.used)
    (h3 : lookupStyle cat n = some st) :
    insertStyleF cat (f + 1) s n =
      insertListF cat f ⟨n :: s.used, s.calls ++ [n]⟩ (depKeys st) := by
  simp [insertStyleF, h1, h2, h3, insertListF]

theorem insertListF_mono_of (cat : Catalog) (f : Nat)
    (h : ∀ s n, s.used ⊆ (insertStyleF cat f s n).used) :
    ∀ (vs : List String) (s : InsSt), s.used ⊆ (insertListF cat f s vs).used := by
  intro vs
  induction vs with
  | nil => intro s; exact List.Subset.refl _
  | cons v rest ih => intro s; exact (h s v).trans (ih _)

theorem insertStyleF_used_mono (cat : Catalog) : ∀ (f : Nat) (s : InsSt) (n : String),
    s.used ⊆ (insertStyleF cat f s n).used := by
  intro f
  induction f with
  | zero => intro s n; exact List.Subset.refl _
  | succ f ih =>
    intro s n
    by_cases h1 : n = ""
    · rw [insertStyleF_noop cat f s n (Or.inl h1)]
      exact List.Subset.refl _
    by_cases h2 : n ∈ s.used
    · rw [insertStyleF_noop cat f s n (Or.inr (Or.inl h2))]
      exact List.Subset.refl _
    cases h3 : lookupStyle cat n with
    | none =>
      rw [insertStyleF_noop cat f s n (Or.inr (Or.inr h3))]
      exact List.Subset.refl _
    | some st =>
      rw [insertStyleF_succ_insert cat f s n st h1 h2 h3]
      exact (List.subset_cons_self n s.used).trans
        (insertListF_mono_of cat f ih (depKeys st) ⟨n :: s.used, s.calls ++ [n]⟩)

theorem insertListF_used_mono (cat : Catalog) (f : Nat) (vs : List String) (s : InsSt) :
    s.used ⊆ (insertListF cat f s vs).used :=
  insertListF_mono_of cat f (insertStyleF_used_mono cat f) vs s

theorem unusedCount_anti (cat : Catalog) {u1 u2 : List String} (h : u1 ⊆ u2) :
    unusedCount cat u2 ≤ unusedCount cat u1 := by
  apply Finset.card_le_card
  intro m hm
  simp only [Finset.mem_filter] at *
  exact ⟨hm.1, fun c => hm.2 (h c)⟩

theorem lookup_mem_names (cat : Catalog) (n : String) (st : StyleDef)
    (h : lookupStyle cat n = some st) :
    n ∈ (cat.map Prod.fst).toFinset := by
  unfold lookupStyle at h
  cases hf : cat.find? (fun e => e.1 == n) with
  | none => rw [hf] at h; simp at h
  | some e =>
    have hm := List.mem_of_find?_eq_some hf
    have hp := List.find?_some hf
    simp only [beq_iff_eq] at hp
    simp only [List.mem_toFinset, List.mem_map]
    exact ⟨e, hm, hp⟩

theorem unusedCount_cons_lt (cat : Catalog) (n : String) (used : List String)
    (hmem : n ∈ (cat.map Prod.fst).toFinset) (hn : n ∉ used) :
    unusedCount cat (n :: used) < unusedCount cat used := by
  apply Finset.card_lt_card
  rw [Finset.ssubset_def]
  constructor
  · intro m hm
    simp only [Finset.mem_filter, List.mem_cons] at *
    exact ⟨hm.1, fun c => hm.2 (Or.inr c)⟩
  · intro hsub
    have hin : n ∈ (cat.map Prod.fst).toFinset.filter (fun m => m ∉ used) := by
      simp only [Finset.mem_filter]
      exact ⟨hmem, hn⟩
    have h2 := hsub hin
    simp [Finset.mem_filter] at h2

theorem unusedCount_le (cat : Catalog) (used : List String) :
    unusedCount cat used ≤ cat.length := by
  calc unusedCount cat used ≤ (cat.map Prod.fst).toFinset.card :=
        Finset.card_filter_le _ _
    _ ≤ (cat.map Prod.fst).length := (cat.map Prod.fst).toFinset_card_le
    _ = cat.length := List.length_map _ _

theorem insertListF_good_of (cat : Catalog) (f : Nat)
    (h : ∀ s n, Good s → Good (insertStyleF cat f s n)) :
    ∀ (vs : List String) (s : InsSt), Good s → Good (insertListF cat f s vs) := by
  intro vs
  induction vs with
  | nil => intro s hs; exact hs
  | cons v rest ih => intro s hs; exact ih _ (h s v hs)

theorem insertStyleF_good (cat : Catalog) : ∀ (f : Nat) (s : InsSt) (n : String),
    Good s → Good (insertStyleF cat f s n) := by
  intro f
  induction f with
  | zero => intro s n hs; exact hs
  | succ f ih =>
    intro s n hs
    by_cases h1 : n = ""
    · rw [insertStyleF_noop cat f s n (Or.inl h1)]; exact hs
    by_cases h2 : n ∈ s.used
    · rw [insertStyleF_noop cat f s n (Or.inr (Or.inl h2))]; exact hs
    cases h3 : lookupStyle cat n with
    | none => rw [insertStyleF_noop cat f s n (Or.inr (Or.inr h3))]; exact hs
    | some st =>
      rw [insertStyleF_succ_insert cat f s n st h1 h2 h3]
      apply insertListF_good_of cat f ih
      constructor
      · show s.calls ++ [n] = (n :: s.used).reverse
        rw [List.reverse_cons, hs.1]
      · exact List.nodup_cons.mpr ⟨h2, hs.2⟩

theorem insertStyleF_mem (cat : Catalog) (f : Nat) (s : InsSt) (n : String)
    (st : StyleDef) (h1 : ¬ n = "") (h2 : n ∉ s.used)
    (h3 : lookupStyle cat n = some st) :
    n ∈ (insertStyleF cat (f + 1) s n).used := by
  rw [insertStyleF_succ_insert cat f s n st h1 h2 h3]
  exact insertListF_used_mono cat f _ _ (List.mem_cons_self n s.used)

theorem insertStyleF_self_ok (cat : Catalog) (f : Nat) (s : InsSt) (v : String)
    (hf : 1 ≤ f) : depOk cat (insertStyleF cat f s v).used v := by
  obtain ⟨g, rfl⟩ : ∃ g, f = g + 1 := ⟨f - 1, by omega⟩
  by_cases h1 : v = ""
  · exact Or.inl h1
  cases h3 : lookupStyle cat v with
  | none => exact Or.inr (Or.inl h3)
  | some st =>
    by_cases h2 : v ∈ s.used
    · rw [insertStyleF_noop cat g s v (Or.inr (Or.inl h2))]
      exact Or.inr (Or.inr h2)
    · exact Or.inr (Or.inr (insertStyleF_mem cat g s v st h1 h2 h3))

theorem depOk_mono (cat : Catalog) {u1 u2 : List String} (h : u1 ⊆ u2) (v : String)
    (hd : depOk cat u1 v) : depOk cat u2 v := by
  rcases hd with hd | hd | hd
  · exact Or.inl hd
  · exact Or.inr (Or.inl hd)
  · exact Or.inr (Or.inr (h hd))

theorem insertListF_deps_ok (cat : Catalog) (f : Nat) (hf : 1 ≤ f) :
    ∀ (vs : List String) (s : InsSt) (v : String), v ∈ vs →
      depOk cat (insertListF cat f s vs).used v := by
  intro vs
  induction vs with
  | nil => intro s v hv; simp at hv
  | cons w rest ih =>
    intro s v hv
    rw [insertListF_cons]
    rcases List.mem_cons.mp hv with rfl | hv2
    · exact depOk_mono cat (insertListF_used_mono cat f rest _) v
        (insertStyleF_self_ok cat f s v hf)
    · exact ih _ v hv2

theorem insertListF_fuel_of (cat : Catalog) (f : Nat)
    (hih : ∀ s n, unusedCount cat s.used < f →
      insertStyleF cat f s n = insertStyleF cat (f + 1) s n) :
    ∀ (vs : List String) (s : InsSt), unusedCount cat s.used < f →
      insertListF cat f s vs = insertListF cat (f + 1) s vs := by
  intro vs
  induction vs with
  | nil => intro s _; rfl
  | cons v rest ih =>
    intro s h
    rw [insertListF_cons, insertListF_cons, ← hih s v h]
    exact ih _ (lt_of_le_of_lt
      (unusedCount_anti cat (insertStyleF_used_mono cat f s v)) h)

theorem insertStyleF_fuel_succ (cat : Catalog) : ∀ (f : Nat) (s : InsSt) (n : String),
    unusedCount cat s.used < f → insertStyleF cat f s n = insertStyleF cat (f + 1) s n := by
  intro f
  induction f with
  | zero => intro s n h; exact absurd h (Nat.not_lt_zero _)
  | succ f ih =>
    intro s n h
    by_cases h1 : n = ""
    · rw [insertStyleF_noop cat f s n (Or.inl h1),
        insertStyleF_noop cat (f + 1) s n (Or.inl h1)]
    by_cases h2 : n ∈ s.used
    · rw [insertStyleF_noop cat f s n (Or.inr (Or.inl h2)),
        insertStyleF_noop cat (f + 1) s n (Or.inr (Or.inl h2))]
    cases h3 : lookupStyle cat n with
    | none =>
      rw [insertStyleF_noop cat f s n (Or.inr (Or.inr h3)),
        insertStyleF_noop cat (f + 1) s n (Or.inr (Or.inr h3))]
    | some st =>
      rw [insertStyleF_succ_insert cat f s n st h1 h2 h3,
        insertStyleF_succ_insert cat (f + 1) s n st h1 h2 h3]
      apply insertListF_fuel_of cat f ih
      have hlt := unusedCount_cons_lt cat n s.used (lookup_mem_names cat n st h3) h2
      show unusedCount cat (n :: s.used) < f
      omega

theorem insertStyleF_fuel_ge (cat : Catalog) : ∀ (k f : Nat) (s : InsSt) (n : String),
    unusedCount cat s.used < f →
      insertStyleF cat (f + k) s n = insertStyleF cat f s n := by
  intro k
  induction k with
  | zero => intros; rfl
  | succ k ih =>
    intro f s n h
    have h2 : unusedCount cat s.used < f + k := by omega
    have e : f + (k + 1) = (f + k) + 1 := by omega
    rw [e, ← insertStyleF_fuel_succ cat (f + k) s n h2]
    exact ih f s n h

theorem insertStyleF_idem (cat : Catalog) (f : Nat) (s : InsSt) (n : String)
    (hf : 1 ≤ f) :
    insertStyleF cat f (insertStyleF cat f s n) n = insertStyleF cat f s n := by
  obtain ⟨g, rfl⟩ : ∃ g, f = g + 1 := ⟨f - 1, by omega⟩
  by_cases h1 : n = ""
  · rw [insertStyleF_noop cat g s n (Or.inl h1),
      insertStyleF_noop cat g s n (Or.inl h1)]
  by_cases h2 : n ∈ s.used
  · rw [insertStyleF_noop cat g s n (Or.inr (Or.inl h2)),
      insertStyleF_noop cat g s n (Or.inr (Or.inl h2))]
  cases h3 : lookupStyle cat n with
  | none =>
    rw [insertStyleF_noop cat g s n (Or.inr (Or.inr h3)),
      insertStyleF_noop cat g s n (Or.inr (Or.inr h3))]
  | some st =>
    exact insertStyleF_noop cat g _ n
      (Or.inr (Or.inl (insertStyleF_mem cat g s n st h1 h2 h3)))

theorem count_of_good (s : InsSt) (n : String) (hg : Good s) (hn : n ∈ s.used) :
    s.calls.count n = 1 := by
  rw [hg.1, List.count_reverse]
  exact List.count_eq_one_of_mem hg.2 hn

theorem insertListF_closed_of (cat : Catalog) (f : Nat)
    (hih : ∀ s n E, unusedCount cat s.used < f → ClosedExc cat s.used E →
      ClosedExc cat (insertStyleF cat f s n).used E) :
    ∀ (vs : List String) (s : InsSt) (E : List String),
      unusedCount cat s.used < f → ClosedExc cat s.used E →
      ClosedExc cat (insertListF cat f s vs).used E := by
  intro vs
  induction vs with
  | nil => intro s E _ hc; exact hc
  | cons v rest ih =>
    intro s E h hc
    rw [insertListF_cons]
    exact ih _ E
      (lt_of_le_of_lt (unusedCount_anti cat (insertStyleF_used_mono cat f s v)) h)
      (hih s v E h hc)

theorem closedExc_mono_used (cat : Catalog) {u1 u2 : List String} (E : List String)
    (hsub : u1 ⊆ u2) (m : String) (hm : m ∈ u1)
    (hc : ClosedExc cat u1 E) (hmE : m ∉ E) :
    ∀ v ∈ depKeysOf cat m, depOk cat u2 v :=
  fun v hv => depOk_mono cat hsub v (hc m hm hmE v hv)

theorem insertStyleF_closedExc (cat : Catalog) :
    ∀ (f : Nat) (s : InsSt) (n : String) (E : List String),
      unusedCount cat s.used < f → ClosedExc cat s.used E →
      ClosedExc cat (insertStyleF cat f s n).used E := by
  intro f
  induction f with
  | zero => intro s n E h _; exact absurd h (Nat.not_lt_zero _)
  | succ f ih =>
    intro s n E h hc
    by_cases h1 : n = ""
    · rw [insertStyleF_noop cat f s n (Or.inl h1)]; exact hc
    by_cases h2 : n ∈ s.used
    · rw [insertStyleF_noop cat f s n (Or.inr (Or.inl h2))]; exact hc
    cases h3 : lookupStyle cat n with
    | none => rw [insertStyleF_noop cat f s n (Or.inr (Or.inr h3))]; exact hc
    | some st =>
      rw [insertStyleF_succ_insert cat f s n st h1 h2 h3]
      have hu1 : unusedCount cat (n :: s.used) < f := by
        have hlt := unusedCount_cons_lt cat n s.used (lookup_mem_names cat n st h3) h2
        omega
      have hf1 : 1 ≤ f := by omega
      have hE1 : ClosedExc cat (n :: s.used) (n :: E) := by
        intro m hm hmE v hv
        rcases List.mem_cons.mp hm with rfl | hm2
        · exact absurd (List.mem_cons_self m E) hmE
        · have hmE2 : m ∉ E := fun c => hmE (List.mem_cons_of_mem n c)
          exact depOk_mono cat (List.subset_cons_self n s.used) v (hc m hm2 hmE2 v hv)
      have hR : ClosedExc cat
          (insertListF cat f ⟨n :: s.used, s.calls ++ [n]⟩ (depKeys st)).used (n :: E) :=
        insertListF_closed_of cat f ih (depKeys st) _ (n :: E) hu1 hE1
      have hdd : ∀ v ∈ depKeys st,
          depOk cat (insertListF cat f ⟨n :: s.used, s.calls ++ [n]⟩ (depKeys st)).used v :=
        fun v hv => insertListF_deps_ok cat f hf1 (depKeys st) _ v hv
      intro m hm hmE v hv
      by_cases hmn : m = n
      · subst hmn
        have hdk : depKeysOf cat m = depKeys st := by unfold depKeysOf; rw [h3]
        rw [hdk] at hv
        exact hdd v hv
      · exact hR m hm (by simp [hmn, hmE]) v hv

theorem guessFrom_none (cat : Catalog) (family : String) :
    ∀ (l : List Node), (∀ n ∈ l, nodeIsMatch cat family n = false) →
      guessFrom cat family l = none := by
  intro l
  induction l with
  | nil => intro _; rfl
  | cons n rest ih =>
    intro h
    have hn := h n (List.mem_cons_self n rest)
    have hrest := ih (fun x hx => h x (List.mem_cons_of_mem n hx))
    cases n with
    | nStr s =>
      by_cases hs : s = ""
      · subst hs; simp [guessFrom, nodeTruthy, hrest]
      · have hm : isMatch cat family s = false := by
          simpa [nodeIsMatch, hs] using hn
        simp [guessFrom, nodeTruthy, hs, hm, hrest]
    | nNull => simp [guessFrom, nodeTruthy, hrest]
    | nBool b => cases b <;> simp [guessFrom, nodeTruthy, hrest]
    | nInt i => by_cases hi : i = 0 <;> simp [guessFrom, nodeTruthy, hi, hrest]
    | nFloat q => by_cases hi : q = 0 <;> simp [guessFrom, nodeTruthy, hi, hrest]
    | nOther t => simp [guessFrom, nodeTruthy, hrest]
    | nList xs => simp [guessFrom, nodeTruthy, hrest]
    | nDict mm => simp [guessFrom, nodeTruthy, hrest]

theorem isMatch_ne_empty (cat : Catalog) (family m : String)
    (hWF : lookupStyle cat "" = none) (hm : isMatch cat family m = true) : m ≠ "" := by
  intro e
  subst e
  simp [isMatch, hWF] at hm

theorem guessFrom_first (cat : Catalog) (family : String) :
    ∀ (pre : List String) (m : String) (post : List String),
      (∀ x ∈ pre, isMatch cat family x = false) → isMatch cat family m = true →
      lookupStyle cat "" = none →
      guessFrom cat family ((pre ++ m :: post).map Node.nStr) = some m := by
  intro pre
  induction pre with
  | nil =>
    intro m post _ hm hWF
    simp [guessFrom, nodeTruthy, isMatch_ne_empty cat family m hWF hm, hm]
  | cons x rest ih =>
    intro m post h hm hWF
    have hx := h x (List.mem_cons_self x rest)
    have htail := ih m post (fun y hy => h y (List.mem_cons_of_mem x hy)) hm hWF
    by_cases hxe : x = ""
    · subst hxe; simpa [guessFrom, nodeTruthy] using htail
    · simpa [guessFrom, nodeTruthy, hxe, hx] using htail

theorem eraseKey_not_has (m : OptMap) (k : String) :
    hasKey (eraseKey m k) k = false := by
  cases hf : (eraseKey m k).find? (fun e => e.1 == k) with
  | none => simp [hasKey, lookupOpt, hf]
  | some e =>
    exfalso
    have hp := List.find?_some hf
    have hm := List.mem_of_find?_eq_some hf
    have hq := List.of_mem_filter hm
    simp only [beq_iff_eq] at hp
    simp only [decide_eq_true_eq] at hq
    exact hq hp

theorem eraseKey_of_not_has (m : OptMap) (k : String) (h : hasKey m k = false) :
    eraseKey m k = m := by
  have h2 : m.find? (fun e => e.1 == k) = none := by
    cases hf : m.find? (fun e => e.1 == k) with
    | none => rfl
    | some e => rw [hasKey, lookupOpt, hf] at h; simp at h
  apply List.filter_eq_self.mpr
  intro e he
  have := List.find?_eq_none.mp h2 e he
  simpa using this

theorem split_dict_found (m : OptMap) (k : String) (v : Node)
    (h : lookupOpt m k = some v) :
    split (Node.nDict m) k = (v, eraseKey m k) := by
  simp [split, optGetD, h]

theorem split_dict_missing (m : OptMap) (k : String)
    (h : lookupOpt m k = none) :
    split (Node.nDict m) k = (Node.nList [], m) := by
  have he : eraseKey m k = m :=
    eraseKey_of_not_has m k (by simp [hasKey, h])
  simp [split, optGetD, h, he]

theorem split_non_dict (n : Node) (k : String) (h : isDict n = false) :
    split n k = (n, []) := by
  cases n <;> simp_all [split, isDict]

theorem parseCell_scalar (st : PState) (x y : Int) (seed : Option String) (v : Node)
    (h : isScalar v = true) :
    parseCell st x y seed v =
      some ({ st with
          ins := insertStyleOpt st.cat st.ins (resolveCellStyle st.cat st.defaults seed v) },
        ⟨v, resolveCellStyle st.cat st.defaults seed v, none, none, []⟩) := by
  cases v <;> first
    | rfl
    | simp [isScalar] at h

theorem parseCells_scalar (y : Int) (seed : Option String) :
    ∀ (cs : List Node) (st : PState) (x : Int), cs.all isScalar = true →
      ∃ st2 ocs, parseCells y seed st x cs = some (st2, ocs)
        ∧ ocs.map (fun c => c.value) = cs
        ∧ st2.defaults = st.defaults ∧ st2.cat = st.cat
        ∧ st2.tabCounter = st.tabCounter ∧ st2.spanned = st.spanned := by
  intro cs
  induction cs with
  | nil => intro st x _; exact ⟨st, [], rfl, rfl, rfl, rfl, rfl, rfl⟩
  | cons c rest ih =>
    intro st x hall
    simp only [List.all_cons, Bool.and_eq_true] at hall
    have hc1 := parseCell_scalar st x y seed c hall.1
    obtain ⟨st2, ocs, heq, hv, hd, hcat, htc, hsp⟩ :=
      ih { st with
        ins := insertStyleOpt st.cat st.ins (resolveCellStyle st.cat st.defaults seed c) }
        (x + 1) hall.2
    refine ⟨st2,
      (⟨c, resolveCellStyle st.cat st.defaults seed c, none, none, []⟩ : OCell) :: ocs,
      ?_, ?_, hd, hcat, htc, hsp⟩
    · simp only [parseCells, hc1, Option.bind_eq_bind, Option.some_bind, heq, Option.pure_def]
    · simp [hv]

theorem parseRow_bare (st : PState) (y : Int) (trs tcs : Option String)
    (cs : List Node) (h : cs.all isScalar = true) :
    ∃ st2 orow, parseRow st y trs tcs (Node.nList cs) = some (st2, orow)
      ∧ orow.cells.map (fun c => c.value) = cs
      ∧ st2.defaults = st.defaults ∧ st2.cat = st.cat
      ∧ st2.tabCounter = st.tabCounter ∧ st2.spanned = st.spanned := by
  obtain ⟨st2, ocs, heq, hv, hd, hcat, htc, hsp⟩ :=
    parseCells_scalar y (guessStyle st.cat [] "table-cell" tcs) cs
      { st with
        ins := insertStyleOpt st.cat st.ins (guessStyle st.cat [] "table-row" trs) } 0 h
  refine ⟨st2, ⟨guessStyle st.cat [] "table-row" trs, ocs⟩, ?_, hv, hd, hcat, htc, hsp⟩
  simp only [parseRow, split, asList, Option.bind_eq_bind, Option.some_bind, heq, Option.pure_def]

theorem parseRows_bare (trs tcs : Option String) :
    ∀ (rs : List Node) (st : PState) (y : Int), rs.all bareRow = true →
      ∃ st2 orows, parseRows trs tcs st y rs = some (st2, orows)
        ∧ orows.map (fun r => r.cells.map (fun c => c.value)) = rs.map rowCellsOf
        ∧ st2.defaults = st.defaults ∧ st2.cat = st.cat
        ∧ st2.tabCounter = st.tabCounter ∧ st2.spanned = st.spanned := by
  intro rs
  induction rs with
  | nil => intro st y _; exact ⟨st, [], rfl, rfl, rfl, rfl, rfl, rfl⟩
  | cons r rest ih =>
    intro st y hall
    simp only [List.all_cons, Bool.and_eq_true] at hall
    obtain ⟨cs, rfl⟩ : ∃ cs, r = Node.nList cs := by
      cases r <;> first
        | exact ⟨_, rfl⟩
        | simp [bareRow] at hall
    have hcs : cs.all isScalar = true := by
      simpa [bareRow] using hall.1
    obtain ⟨st1, orow, heq1, hv1, hd1, hcat1, htc1, hsp1⟩ :=
      parseRow_bare st y trs tcs cs hcs
    obtain ⟨st2, orows, heq2, hv2, hd2, hcat2, htc2, hsp2⟩ := ih st1 (y + 1) hall.2
    refine ⟨st2, orow :: orows, ?_, ?_, hd2.trans hd1, hcat2.trans hcat1,
      htc2.trans htc1, hsp2.trans hsp1⟩
    · simp only [parseRows, heq1, Option.bind_eq_bind, Option.some_bind, heq2, Option.pure_def]
    · simp [hv1, hv2, rowCellsOf]

theorem parseTable_bare (st : PState) (t : Node) (h : bareTab t = true) :
    ∃ st2 tab, parseTable st t = some (st2, tab)
      ∧ tab.name = "Tab " ++ toString (st.tabCounter + 1)
      ∧ tab.rows.map (fun r => r.cells.map (fun c => c.value)) = tabCellValues t
      ∧ tab.spans = []
      ∧ st2.defaults = st.defaults ∧ st2.cat = st.cat
      ∧ st2.tabCounter = st.tabCounter + 1 := by
  obtain ⟨rs, rfl⟩ : ∃ rs, t = Node.nList rs := by
    cases t <;> simp [bareTab] at h ⊢
  have hrs : rs.all bareRow = true := by simpa [bareTab] using h
  obtain ⟨st2, orows, heq, hv, hd, hcat, htc, hsp⟩ :=
    parseRows_bare (guessStyle st.cat [] "table-row" (some st.defaults.style_table_row))
      (guessStyle st.cat [] "table-cell" (some st.defaults.style_table_cell)) rs
      { st with tabCounter := st.tabCounter + 1, spanned := [] } 0 hrs
  refine ⟨st2, ⟨"Tab " ++ toString (st.tabCounter + 1), orows, none,
      parseSpanned st2.spanned []⟩, ?_, rfl, ?_, ?_, hd, hcat, htc⟩
  · simp [parseTable, split, asList, lookupOpt, heq]
  · simpa [tabCellValues, tabRowsOf] using hv
  · rw [hsp]; rfl

theorem parseTables_bare :
    ∀ (ts : List Node) (st : PState), ts.all bareTab = true →
      ∃ st2 tabs, parseTables st ts = some (st2, tabs)
        ∧ tabs.length = ts.length
        ∧ (∀ (i : Nat) (hi : i < tabs.length),
            (tabs.get ⟨i, hi⟩).name = "Tab " ++ toString (st.tabCounter + i + 1))
        ∧ tabs.map (fun tb => tb.rows.map (fun r => r.cells.map (fun c => c.value)))
            = ts.map tabCellValues
        ∧ st2.defaults = st.defaults := by
  intro ts
  induction ts with
  | nil => intro st _; exact ⟨st, [], rfl, rfl, fun i hi => absurd hi (by simp), rfl, rfl⟩
  | cons t rest ih =>
    intro st hall
    simp only [List.all_cons, Bool.and_eq_true] at hall
    obtain ⟨st1, tab, heq1, hname, hv1, _, hd1, _, htc1⟩ :=
      parseTable_bare st t hall.1
    obtain ⟨st2, tabs, heq2, hlen, hnames, hv2, hd2⟩ := ih st1 hall.2
    refine ⟨st2, tab :: tabs, ?_, by simp [hlen], ?_, by simp [hv1, hv2],
      hd2.trans hd1⟩
    · simp only [parseTables, heq1, Option.bind_eq_bind, Option.some_bind, heq2, Option.pure_def]
    · intro i hi
      cases i with
      | zero => simpa using hname
      | succ j =>
        have hj : j < tabs.length := by simpa using hi
        have := hnames j hj
        rw [htc1] at this
        simp only [List.get_cons_succ]
        rw [this]
        congr 1
        congr 1
        omega

/-- C7: for every node and reserved key, split returns, when the node is a
keyed mapping, the value stored under the reserved key (an empty sequence
when the key is absent) paired with the remaining mapping with that key
removed; when the node is anything else it returns the node itself paired
with an empty options mapping. -/
theorem split_decomposition (m : OptMap) (k : String) (n v : Node)
    (hn : isDict n = false) :
    (lookupOpt m k = some v → split (Node.nDict m) k = (v, eraseKey m k))
    ∧ (lookupOpt m k = none → split (Node.nDict m) k = (Node.nList [], m))
    ∧ hasKey (eraseKey m k) k = false
    ∧ split n k = (n, []) :=
  ⟨fun h => split_dict_found m k v h,
   fun h => split_dict_missing m k h,
   eraseKey_not_has m k,
   split_non_dict n k hn⟩

/-- C7 witness: split_decomposition applied at a concrete mapping and a
concrete non-mapping node. -/
theorem split_decomposition_witness :
    isDict (Node.nList []) = false
    ∧ ((lookupOpt [("row", Node.nNull)] "row" = some Node.nNull →
          split (Node.nDict [("row", Node.nNull)]) "row" =
            (Node.nNull, eraseKey [("row", Node.nNull)] "row"))
      ∧ (lookupOpt [("row", Node.nNull)] "row" = none →
          split (Node.nDict [("row", Node.nNull)]) "row" =
            (Node.nList [], [("row", Node.nNull)]))
      ∧ hasKey (eraseKey [("row", Node.nNull)] "row") "row" = false
      ∧ split (Node.nList []) "row" = (Node.nList [], [])) :=
  ⟨rfl, split_decomposition [("row", Node.nNull)] "row" (Node.nList []) Node.nNull rfl⟩

/-- C10 counterexample: an empty caller-owned "span" list is falsy, so
parse_spanned leaves it untouched even though accumulated per-cell regions
exist; the claim predicts the regions would be appended to it. -/
theorem empty_span_list_not_extended :
    parseSpannedCallerList []
        [Node.nList [Node.nInt 0, Node.nInt 0, Node.nInt 1, Node.nInt 0]] = []
    ∧ (parseSpannedCallerList []
        [Node.nList [Node.nInt 0, Node.nInt 0, Node.nInt 1, Node.nInt 0]]).length = 0
    ∧ (([] : List Node) ++
        [Node.nList [Node.nInt 0, Node.nInt 0, Node.nInt 1, Node.nInt 0]]).length = 1 :=
  ⟨rfl, rfl, rfl⟩

/-- C10 (amended): parsing mutates the caller's input description: the
reserved key is removed from the caller's mapping during decomposition (the
remaining mapping is strictly shorter when the key was present), and for
every tab whose "span" option is a non-empty list, the accumulated span
regions are appended in place to that caller-owned list. -/
theorem parse_mutates_caller_input (m : OptMap) (k : String)
    (callerSpan spanned : List Node)
    (hk : hasKey m k = true) (hcs : callerSpan ≠ []) :
    hasKey (split (Node.nDict m) k).2 k = false
    ∧ (eraseKey m k).length < m.length
    ∧ parseSpannedCallerList callerSpan spanned = callerSpan ++ spanned
    ∧ (spanned ≠ [] →
        (parseSpannedCallerList callerSpan spanned).length ≠ callerSpan.length) := by
  have h3 : parseSpannedCallerList callerSpan spanned = callerSpan ++ spanned := by
    simp [parseSpannedCallerList, nodeTruthy, hcs]
  refine ⟨eraseKey_not_has m k, ?_, h3, ?_⟩
  · obtain ⟨e, hmem, hek⟩ : ∃ e ∈ m, e.1 = k := by
      cases hf : m.find? (fun e => e.1 == k) with
      | none => rw [hasKey, lookupOpt, hf] at hk; simp at hk
      | some e =>
        have hp := List.find?_some hf
        simp only [beq_iff_eq] at hp
        exact ⟨e, List.mem_of_find?_eq_some hf, hp⟩
    apply List.length_filter_lt_length_iff_exists.mpr
    exact ⟨e, hmem, by simp [hek]⟩
  · intro hsp
    rw [h3, List.length_append]
    have : spanned.length ≠ 0 := fun c => hsp (List.length_eq_zero.mp c)
    omega

/-- C10 witness: parse_mutates_caller_input at a concrete mapping carrying
the reserved key and a concrete non-empty caller-owned span list. -/
theorem parse_mutates_caller_input_witness :
    hasKey [("table", Node.nNull)] "table" = true
    ∧ ([Node.nStr "A1:B2"] : List Node) ≠ []
    ∧ (hasKey (split (Node.nDict [("table", Node.nNull)]) "table").2 "table" = false
      ∧ (eraseKey [("table", Node.nNull)] "table").length < [("table", Node.nNull)].length
      ∧ parseSpannedCallerList [Node.nStr "A1:B2"] [Node.nNull] =
          [Node.nStr "A1:B2"] ++ [Node.nNull]
      ∧ (([Node.nNull] : List Node) ≠ [] →
          (parseSpannedCallerList [Node.nStr "A1:B2"] [Node.nNull]).length ≠
            ([Node.nStr "A1:B2"] : List Node).length)) :=
  ⟨rfl, List.cons_ne_nil _ _,
   parse_mutates_caller_input [("table", Node.nNull)] "table"
     [Node.nStr "A1:B2"] [Node.nNull] rfl (List.cons_ne_nil _ _)⟩

/-- C5: the span accumulator clamps both counts to at least 1, records
nothing when both clamped counts equal 1, and otherwise appends the
rectangle [x, y, x+colspan-1, y+rowspan-1] at the cell's append-order
coordinate; in particular colspanned=2, rowspanned=1 at (2,1) contributes
exactly [2,1,3,1], and colspanned=1, rowspanned=1 contributes no region. -/
theorem span_record_spec (sp : List Node) (x y c r : Int) (opt : OptMap)
    (hc : toIntOpt (optGetD opt "colspanned" (Node.nInt 1)) = some c)
    (hr : toIntOpt (optGetD opt "rowspanned" (Node.nInt 1)) = some r) :
    (1 ≤ max 1 c ∧ 1 ≤ max 1 r)
    ∧ (max 1 c = 1 ∧ max 1 r = 1 → storeSpannedCell sp x y opt = some sp)
    ∧ (¬(max 1 c = 1 ∧ max 1 r = 1) →
        storeSpannedCell sp x y opt = some (sp ++ [Node.nList [Node.nInt x,
          Node.nInt y, Node.nInt (x + max 1 c - 1), Node.nInt (y + max 1 r - 1)]]))
    ∧ storeSpannedCell [] 2 1 [("colspanned", Node.nInt 2), ("rowspanned", Node.nInt 1)]
        = some [Node.nList [Node.nInt 2, Node.nInt 1, Node.nInt 3, Node.nInt 1]]
    ∧ storeSpannedCell sp x y [("colspanned", Node.nInt 1), ("rowspanned", Node.nInt 1)]
        = some sp := by
  refine ⟨⟨le_max_left 1 c, le_max_left 1 r⟩, ?_, ?_, rfl, rfl⟩
  · rintro ⟨h1, h2⟩
    simp [storeSpannedCell, hc, hr, h1, h2]
    omega
  · intro h
    have hca : 1 ≤ max 1 c := le_max_left 1 c
    have hra : 1 ≤ max 1 r := le_max_left 1 r
    have hcond : ¬(max 1 c < 2 ∧ max 1 r < 2) := by omega
    simp [storeSpannedCell, hc, hr, hcond]
    omega

/-- C5 witness: span_record_spec at a concrete option mapping carrying only
colspanned=3 (rowspanned defaults to 1). -/
theorem span_record_spec_witness :
    toIntOpt (optGetD [("colspanned", Node.nInt 3)] "colspanned" (Node.nInt 1)) = some 3
    ∧ toIntOpt (optGetD [("colspanned", Node.nInt 3)] "rowspanned" (Node.nInt 1)) = some 1
    ∧ ((1 ≤ max 1 (3 : Int) ∧ 1 ≤ max 1 (1 : Int))
      ∧ (max 1 (3 : Int) = 1 ∧ max 1 (1 : Int) = 1 →
          storeSpannedCell [] 0 0 [("colspanned", Node.nInt 3)] = some [])
      ∧ (¬(max 1 (3 : Int) = 1 ∧ max 1 (1 : Int) = 1) →
          storeSpannedCell [] 0 0 [("colspanned", Node.nInt 3)] =
            some ([] ++ [Node.nList [Node.nInt 0, Node.nInt 0,
              Node.nInt (0 + max 1 3 - 1), Node.nInt (0 + max 1 1 - 1)]]))
      ∧ storeSpannedCell [] 2 1 [("colspanned", Node.nInt 2), ("rowspanned", Node.nInt 1)]
          = some [Node.nList [Node.nInt 2, Node.nInt 1, Node.nInt 3, Node.nInt 1]]
      ∧ storeSpannedCell [] 0 0 [("colspanned", Node.nInt 1), ("rowspanned", Node.nInt 1)]
          = some []) :=
  ⟨rfl, rfl, span_record_spec [] 0 0 3 1 [("colspanned", Node.nInt 3)] rfl rfl⟩

/-- C9 counterexample: on a catalog whose reference graph is a two-cycle
(A references B, B references A), the insertion recursion still completes:
the result is stable in the recursion budget and each style is handed to the
writer exactly once, because a name is marked used before its dependencies
are walked.  Acyclicity of the catalog is therefore not what bounds the
recursion. -/
theorem cyclic_catalog_insertion_completes :
    insertStyleF cycCatalog 3 ⟨[], []⟩ "A" = insertStyleF cycCatalog 50 ⟨[], []⟩ "A"
    ∧ (insertStyleF cycCatalog 50 ⟨[], []⟩ "A").calls = ["A", "B"]
    ∧ (insertStyleF cycCatalog 50 ⟨[], []⟩ "A").used = ["B", "A"] :=
  ⟨rfl, rfl, rfl⟩

/-- C9 (amended): insert_style terminates on every catalog, cyclic or not:
because each name is marked used before its dependencies are walked, the
recursion is bounded by the number of catalog names not yet used, and the
result is independent of any recursion budget beyond that bound. -/
theorem insert_style_fuel_stable (cat : Catalog) (s : InsSt) (n : String)
    (fuel : Nat) (h : unusedCount cat s.used < fuel) :
    insertStyleF cat fuel s n = insertStyleF cat (unusedCount cat s.used + 1) s n := by
  obtain ⟨k, rfl⟩ : ∃ k, fuel = (unusedCount cat s.used + 1) + k :=
    ⟨fuel - (unusedCount cat s.used + 1), by omega⟩
  exact insertStyleF_fuel_ge cat k (unusedCount cat s.used + 1) s n (by omega)

/-- C2: guess_style returns the first name of the "style" option whose
catalog entry has the requested family, regardless of its position among
non-matching entries and regardless of the fallback; when no listed name
matches, it returns the fallback exactly when the fallback resolves with the
requested family, and none otherwise. -/
theorem guess_style_first_match (cat : Catalog) (opt : OptMap) (family dflt : String)
    (names pre post : List String) (m : String)
    (hWF : lookupStyle cat "" = none)
    (hnames : styleListOf opt = names.map Node.nStr) :
    (names = pre ++ m :: post → (∀ x ∈ pre, isMatch cat family x = false) →
        isMatch cat family m = true →
        guessStyle cat opt family (some dflt) = some m)
    ∧ ((∀ x ∈ names, isMatch cat family x = false) →
        guessStyle cat opt family (some dflt) =
          if isMatch cat family dflt then some dflt else none) := by
  constructor
  · intro he hpre hm
    subst he
    have hg := guessFrom_first cat family pre m post hpre hm hWF
    unfold guessStyle
    rw [hnames, hg]
  · intro hall
    have hnm : ∀ n ∈ names.map Node.nStr, nodeIsMatch cat family n = false := by
      intro n hn
      obtain ⟨xx, hx, rfl⟩ := List.mem_map.mp hn
      simp [nodeIsMatch, hall xx hx]
    have hg := guessFrom_none cat family (names.map Node.nStr) hnm
    by_cases hd : isMatch cat family dflt
    · have hne : dflt ≠ "" := isMatch_ne_empty cat family dflt hWF hd
      simp [guessStyle, hnames, hg, hd, hne]
    · simp [guessStyle, hnames, hg, hd]

/-- C2 witness: guess_style_first_match on a two-entry catalog, with a style
list whose first entry is a row-family style and whose second is the
cell-family match. -/
theorem guess_style_first_match_witness :
    lookupStyle c2Catalog "" = none
    ∧ styleListOf [("style", Node.nList [Node.nStr "r1", Node.nStr "c1"])] =
        (["r1", "c1"] : List String).map Node.nStr
    ∧ ((["r1", "c1"] = ["r1"] ++ "c1" :: [] →
          (∀ x ∈ (["r1"] : List String), isMatch c2Catalog "table-cell" x = false) →
          isMatch c2Catalog "table-cell" "c1" = true →
          guessStyle c2Catalog [("style", Node.nList [Node.nStr "r1", Node.nStr "c1"])]
            "table-cell" (some "left") = some "c1")
      ∧ ((∀ x ∈ (["r1", "c1"] : List String), isMatch c2Catalog "table-cell" x = false) →
          guessStyle c2Catalog [("style", Node.nList [Node.nStr "r1", Node.nStr "c1"])]
            "table-cell" (some "left") =
            if isMatch c2Catalog "table-cell" "left" then some "left" else none)) :=
  ⟨rfl, rfl,
   guess_style_first_match c2Catalog
     [("style", Node.nList [Node.nStr "r1", Node.nStr "c1"])]
     "table-cell" "left" ["r1", "c1"] ["r1"] [] "c1" rfl rfl⟩

/-- C3: insert_style is a no-op on an empty, already-inserted or unknown
name; it is idempotent; it keeps the invariant that the writer received
exactly the used names once each; an insertable name ends with exactly one
writer call; every dependency referenced through an attribute ending in
"style-name" ends up handled (falsy, unknown, or inserted); and the used set
stays closed under dependencies, which is the transitive closure property. -/
theorem insert_style_once_and_deps (cat : Catalog) (s : InsSt) (name : String)
    (hgood : Good s) (hclosed : Closed cat s.used) :
    (name = "" ∨ name ∈ s.used ∨ lookupStyle cat name = none →
        insertStyle cat s name = s)
    ∧ insertStyle cat (insertStyle cat s name) name = insertStyle cat s name
    ∧ Good (insertStyle cat s name)
    ∧ (name ≠ "" → lookupStyle cat name ≠ none →
        (insertStyle cat s name).calls.count name = 1)
    ∧ (name ≠ "" → ∀ v ∈ depKeysOf cat name,
        depOk cat (insertStyle cat s name).used v)
    ∧ Closed cat (insertStyle cat s name).used := by
  have hfuel : unusedCount cat s.used < cat.length + 1 :=
    Nat.lt_succ_of_le (unusedCount_le cat s.used)
  refine ⟨?_, ?_, ?_, ?_, ?_, ?_⟩
  · intro h
    exact insertStyleF_noop cat cat.length s name h
  · exact insertStyleF_idem cat (cat.length + 1) s name (by omega)
  · exact insertStyleF_good cat (cat.length + 1) s name hgood
  · intro h1 h2
    apply count_of_good _ _ (insertStyleF_good cat (cat.length + 1) s name hgood)
    by_cases hu : name ∈ s.used
    · exact insertStyleF_used_mono cat (cat.length + 1) s name hu
    · cases h3 : lookupStyle cat name with
      | none => exact absurd h3 h2
      | some st => exact insertStyleF_mem cat cat.length s name st h1 hu h3
  · intro h1 v hv
    cases h3 : lookupStyle cat name with
    | none =>
      unfold depKeysOf at hv
      rw [h3] at hv
      simp at hv
    | some st =>
      by_cases hu : name ∈ s.used
      · have hno : insertStyle cat s name = s :=
          insertStyleF_noop cat cat.length s name (Or.inr (Or.inl hu))
        rw [hno]
        exact hclosed name hu (List.not_mem_nil name) v hv
      · have hdk : depKeysOf cat name = depKeys st := by
          unfold depKeysOf; rw [h3]
        rw [hdk] at hv
        have hflen : 1 ≤ cat.length := by
          cases cat with
          | nil => simp [lookupStyle] at h3
          | cons a l => simp
        have hins : insertStyle cat s name =
            insertListF cat cat.length ⟨name :: s.used, s.calls ++ [name]⟩ (depKeys st) :=
          insertStyleF_succ_insert cat cat.length s name st h1 hu h3
        rw [hins]
        exact insertListF_deps_ok cat cat.length hflen (depKeys st) _ v hv
  · exact insertStyleF_closedExc cat (cat.length + 1) s name [] hfuel hclosed

/-- C3 witness: insert_style_once_and_deps on a fresh document state and a
two-entry catalog where A references the data style B. -/
theorem insert_style_once_and_deps_witness :
    Good (InsSt.mk [] []) ∧ Closed c3Catalog (InsSt.mk [] []).used
    ∧ (("A" = "" ∨ "A" ∈ (InsSt.mk [] []).used ∨ lookupStyle c3Catalog "A" = none →
          insertStyle c3Catalog ⟨[], []⟩ "A" = ⟨[], []⟩)
      ∧ insertStyle c3Catalog (insertStyle c3Catalog ⟨[], []⟩ "A") "A" =
          insertStyle c3Catalog ⟨[], []⟩ "A"
      ∧ Good (insertStyle c3Catalog ⟨[], []⟩ "A")
      ∧ ("A" ≠ "" → lookupStyle c3Catalog "A" ≠ none →
          (insertStyle c3Catalog ⟨[], []⟩ "A").calls.count "A" = 1)
      ∧ ("A" ≠ "" → ∀ v ∈ depKeysOf c3Catalog "A",
          depOk c3Catalog (insertStyle c3Catalog ⟨[], []⟩ "A").used v)
      ∧ Closed c3Catalog (insertStyle c3Catalog ⟨[], []⟩ "A").used) :=
  ⟨by decide, by decide,
   insert_style_once_and_deps c3Catalog ⟨[], []⟩ "A" (by decide) (by decide)⟩

theorem parseCell_value_style (st : PState) (x y : Int) (seed : Option String)
    (v : Node) (name : String) (hv : isScalar v = true) :
    parseCell st x y seed (Node.nDict [("value", v), ("style", Node.nStr name)]) =
      some (⟨st.defaults, st.cat,
          insertStyleOpt st.cat st.ins (resolveCellStyle st.cat st.defaults seed
            (Node.nDict [("value", v), ("style", Node.nStr name)])),
          st.spanned, st.tabCounter⟩,
        ⟨v, resolveCellStyle st.cat st.defaults seed
          (Node.nDict [("value", v), ("style", Node.nStr name)]), none, none, []⟩) := by
  cases v <;> first
    | rfl
    | simp [isScalar] at hv

theorem parseRow_empty_style (st : PState) (y : Int) (trs tcs : Option String)
    (name : String) :
    parseRow st y trs tcs
        (Node.nDict [("row", Node.nList []), ("style", Node.nStr name)]) =
      some (⟨st.defaults, st.cat,
          insertStyleOpt st.cat st.ins
            (guessStyle st.cat [("style", Node.nStr name)] "table-row" trs),
          st.spanned, st.tabCounter⟩,
        ⟨guessStyle st.cat [("style", Node.nStr name)] "table-row" trs, []⟩) := rfl

/-- C8: resolving a style reference never raises: a requested name that is
absent from the catalog or carries the wrong family resolves to none at both
the cell and the row family, and the affected row or cell is built without a
style while the parse state is left untouched. -/
theorem style_resolution_silent (st : PState) (name : String)
    (x y : Int) (v : Node) (seed : Option String)
    (hcell : isMatch st.cat "table-cell" name = false)
    (hrow : isMatch st.cat "table-row" name = false)
    (hseed : ∀ s, seed = some s → s = "" ∨ isMatch st.cat "table-cell" s = false)
    (hdflt : isMatch st.cat "table-cell" (typeDefault st.defaults v) = false)
    (hv : isScalar v = true) :
    guessStyle st.cat [("style", Node.nStr name)] "table-cell" none = none
    ∧ guessStyle st.cat [("style", Node.nStr name)] "table-row" none = none
    ∧ parseRow st y none none
        (Node.nDict [("row", Node.nList []), ("style", Node.nStr name)]) =
        some (st, ⟨none, []⟩)
    ∧ parseCell st x y seed
        (Node.nDict [("value", v), ("style", Node.nStr name)]) =
        some (st, ⟨v, none, none, none, []⟩) := by
  have hsl : styleListOf [("style", Node.nStr name)] = [Node.nStr name] := rfl
  have hgc : guessFrom st.cat "table-cell" [Node.nStr name] = none := by
    apply guessFrom_none
    intro n hn
    simp only [List.mem_singleton] at hn
    subst hn
    simp [nodeIsMatch, hcell]
  have hgr : guessFrom st.cat "table-row" [Node.nStr name] = none := by
    apply guessFrom_none
    intro n hn
    simp only [List.mem_singleton] at hn
    subst hn
    simp [nodeIsMatch, hrow]
  have h1 : guessStyle st.cat [("style", Node.nStr name)] "table-cell" none = none := by
    simp [guessStyle, hsl, hgc]
  have h2 : guessStyle st.cat [("style", Node.nStr name)] "table-row" none = none := by
    simp [guessStyle, hsl, hgr]
  have hstyle : resolveCellStyle st.cat st.defaults seed
      (Node.nDict [("value", v), ("style", Node.nStr name)]) = none := by
    show guessStyle st.cat [("style", Node.nStr name)] "table-cell"
      (some (cellDefault st.defaults seed v)) = none
    cases seed with
    | none => simp [guessStyle, hsl, hgc, cellDefault, hdflt]
    | some s =>
      rcases hseed s rfl with rfl | hs
      · simp [guessStyle, hsl, hgc, cellDefault, hdflt]
      · by_cases hse : s = ""
        · subst hse
          simp [guessStyle, hsl, hgc, cellDefault, hdflt]
        · simp [guessStyle, hsl, hgc, cellDefault, hse, hs]
  refine ⟨h1, h2, ?_, ?_⟩
  · rw [parseRow_empty_style st y none none name, h2]
    rfl
  · rw [parseCell_value_style st x y seed v name hv, hstyle]
    rfl

/-- C8 witness: style_resolution_silent over the empty catalog, where the
name "ghost" is unknown at every family. -/
theorem style_resolution_silent_witness :
    isMatch emptyCatState.cat "table-cell" "ghost" = false
    ∧ isMatch emptyCatState.cat "table-row" "ghost" = false
    ∧ (∀ s, (none : Option String) = some s →
        s = "" ∨ isMatch emptyCatState.cat "table-cell" s = false)
    ∧ isMatch emptyCatState.cat "table-cell"
        (typeDefault emptyCatState.defaults (Node.nStr "x")) = false
    ∧ isScalar (Node.nStr "x") = true
    ∧ (guessStyle emptyCatState.cat [("style", Node.nStr "ghost")] "table-cell" none = none
      ∧ guessStyle emptyCatState.cat [("style", Node.nStr "ghost")] "table-row" none = none
      ∧ parseRow emptyCatState 0 none none
          (Node.nDict [("row", Node.nList []), ("style", Node.nStr "ghost")]) =
          some (emptyCatState, ⟨none, []⟩)
      ∧ parseCell emptyCatState 0 0 none
          (Node.nDict [("value", Node.nStr "x"), ("style", Node.nStr "ghost")]) =
          some (emptyCatState, ⟨Node.nStr "x", none, none, none, []⟩)) :=
  ⟨rfl, rfl, fun _ h => Option.noConfusion h, rfl, rfl,
   style_resolution_silent emptyCatState "ghost" 0 0 (Node.nStr "x") none rfl rfl
     (fun _ h => Option.noConfusion h) rfl rfl⟩

/-- C9 witness: insert_style_fuel_stable on the cyclic catalog with a large
budget. -/
theorem insert_style_fuel_stable_witness :
    unusedCount cycCatalog (InsSt.mk [] []).used < 10
    ∧ insertStyleF cycCatalog 10 ⟨[], []⟩ "A" =
        insertStyleF cycCatalog (unusedCount cycCatalog (InsSt.mk [] []).used + 1)
          ⟨[], []⟩ "A" :=
  ⟨by decide, insert_style_fuel_stable cycCatalog ⟨[], []⟩ "A" 10 (by decide)⟩

theorem resolveCellStyle_dict (cat : Catalog) (d : Defaults) (seed : Option String)
    (v : Node) (o : OptMap) (ho : hasKey o "value" = false) :
    resolveCellStyle cat d seed (Node.nDict (("value", v) :: o)) =
      guessStyle cat o "table-cell" (some (cellDefault d seed v)) := by
  have hl : lookupOpt (("value", v) :: o) "value" = some v := by
    simp [lookupOpt]
  have h1 : split (Node.nDict (("value", v) :: o)) "value" = (v, o) := by
    rw [split_dict_found _ _ _ hl]
    have h2 : eraseKey (("value", v) :: o) "value" = eraseKey o "value" := by
      simp [eraseKey]
    rw [h2, eraseKey_of_not_has o "value" ho]
  unfold resolveCellStyle
  rw [h1]

/-- C4 counterexample: a boolean cell value takes the configured integer
default, not the "other" default: Python bool is a subtype of int, so the
isinstance(value, int) branch of parse_cell catches it.  With the built-in
defaults the resolved style of a bare true cell is "right" (style_int),
while the claim assigns it style_other, which is "left". -/
theorem bool_cell_gets_integer_default :
    resolveCellStyle DEFAULT_STYLES DEFAULTS_DICT none (Node.nBool true) = some "right"
    ∧ DEFAULTS_DICT.style_int = "right"
    ∧ DEFAULTS_DICT.style_other = "left"
    ∧ some DEFAULTS_DICT.style_other ≠
        resolveCellStyle DEFAULT_STYLES DEFAULTS_DICT none (Node.nBool true) :=
  ⟨rfl, rfl, rfl, by decide⟩

/-- C4 (amended): for a cell with no inherited cell-style seed and no
family-matching explicit "style" option, the resolved cell style is the
value-type-driven default whenever that default resolves with the cell
family: null or string values get the string default, integer AND BOOLEAN
values the integer default (bool is an int for the isinstance dispatch),
floats the float default, and every remaining value the "other" default; a
non-empty inherited seed replaces the type-driven default, and a
family-matching explicit "style" option always wins over either default. -/
theorem cell_style_default_dispatch (cat : Catalog) (d : Defaults) (v : Node)
    (opt : OptMap) (seed : Option String)
    (hWF : lookupStyle cat "" = none)
    (hseed : seed = none ∨ seed = some "")
    (hnostyle : ∀ n ∈ styleListOf opt, nodeIsMatch cat "table-cell" n = false)
    (hvalue : hasKey opt "value" = false)
    (hdflt : isMatch cat "table-cell" (typeDefault d v) = true) :
    resolveCellStyle cat d seed (Node.nDict (("value", v) :: opt)) =
      some (typeDefault d v)
    ∧ typeDefault d Node.nNull = d.style_str
    ∧ (∀ s, typeDefault d (Node.nStr s) = d.style_str)
    ∧ (∀ i, typeDefault d (Node.nInt i) = d.style_int)
    ∧ (∀ b, typeDefault d (Node.nBool b) = d.style_int)
    ∧ (∀ q, typeDefault d (Node.nFloat q) = d.style_float)
    ∧ (∀ t, typeDefault d (Node.nOther t) = d.style_other)
    ∧ (∀ xs, typeDefault d (Node.nList xs) = d.style_other)
    ∧ (∀ mm, typeDefault d (Node.nDict mm) = d.style_other)
    ∧ (∀ s w, s ≠ "" → cellDefault d (some s) w = s)
    ∧ (∀ (opt2 : OptMap) (seed2 : Option String) (mname : String),
        hasKey opt2 "value" = false →
        guessFrom cat "table-cell" (styleListOf opt2) = some mname →
        resolveCellStyle cat d seed2 (Node.nDict (("value", v) :: opt2)) = some mname) := by
  refine ⟨?_, rfl, fun s => rfl, fun i => rfl, fun b => rfl, fun q => rfl,
    fun t => rfl, fun xs => rfl, fun mm => rfl, ?_, ?_⟩
  · rw [resolveCellStyle_dict cat d seed v opt hvalue]
    have hcd : cellDefault d seed v = typeDefault d v := by
      rcases hseed with rfl | rfl
      · rfl
      · simp [cellDefault]
    rw [hcd]
    have hg := guessFrom_none cat "table-cell" (styleListOf opt) hnostyle
    have hne : typeDefault d v ≠ "" := isMatch_ne_empty cat "table-cell" _ hWF hdflt
    simp [guessStyle, hg, hne, hdflt]
  · intro s w hs
    simp [cellDefault, hs]
  · intro opt2 seed2 mname hv2 hg2
    rw [resolveCellStyle_dict cat d seed2 v opt2 hv2]
    simp [guessStyle, hg2]

/-- C4 witness: cell_style_default_dispatch at an integer cell over the
built-in catalog and defaults, with a style option naming only the unknown
style "nope". -/
theorem cell_style_default_dispatch_witness :
    lookupStyle DEFAULT_STYLES "" = none
    ∧ ((none : Option String) = none ∨ (none : Option String) = some "")
    ∧ (∀ n ∈ styleListOf [("style", Node.nStr "nope")],
        nodeIsMatch DEFAULT_STYLES "table-cell" n = false)
    ∧ hasKey [("style", Node.nStr "nope")] "value" = false
    ∧ isMatch DEFAULT_STYLES "table-cell"
        (typeDefault DEFAULTS_DICT (Node.nInt 7)) = true
    ∧ (resolveCellStyle DEFAULT_STYLES DEFAULTS_DICT none
          (Node.nDict (("value", Node.nInt 7) :: [("style", Node.nStr "nope")])) =
        some (typeDefault DEFAULTS_DICT (Node.nInt 7))
      ∧ typeDefault DEFAULTS_DICT Node.nNull = DEFAULTS_DICT.style_str
      ∧ (∀ s, typeDefault DEFAULTS_DICT (Node.nStr s) = DEFAULTS_DICT.style_str)
      ∧ (∀ i, typeDefault DEFAULTS_DICT (Node.nInt i) = DEFAULTS_DICT.style_int)
      ∧ (∀ b, typeDefault DEFAULTS_DICT (Node.nBool b) = DEFAULTS_DICT.style_int)
      ∧ (∀ q, typeDefault DEFAULTS_DICT (Node.nFloat q) = DEFAULTS_DICT.style_float)
      ∧ (∀ t, typeDefault DEFAULTS_DICT (Node.nOther t) = DEFAULTS_DICT.style_other)
      ∧ (∀ xs, typeDefault DEFAULTS_DICT (Node.nList xs) = DEFAULTS_DICT.style_other)
      ∧ (∀ mm, typeDefault DEFAULTS_DICT (Node.nDict mm) = DEFAULTS_DICT.style_other)
      ∧ (∀ s w, s ≠ "" → cellDefault DEFAULTS_DICT (some s) w = s)
      ∧ (∀ (opt2 : OptMap) (seed2 : Option String) (mname : String),
          hasKey opt2 "value" = false →
          guessFrom DEFAULT_STYLES "table-cell" (styleListOf opt2) = some mname →
          resolveCellStyle DEFAULT_STYLES DEFAULTS_DICT seed2
            (Node.nDict (("value", Node.nInt 7) :: opt2)) = some mname)) :=
  ⟨rfl, Or.inl rfl, by decide, rfl, rfl,
   cell_style_default_dispatch DEFAULT_STYLES DEFAULTS_DICT (Node.nInt 7)
     [("style", Node.nStr "nope")] none rfl (Or.inl rfl) (by decide) rfl rfl⟩

/-- C6: for every document described entirely as bare nested sequences, the
generated tab count equals the input length, each tab's rows and cell values
equal the corresponding input nesting exactly in order, and the tabs are
named "Tab 1", "Tab 2", ... in input order. -/
theorem bare_doc_roundtrip (d : Defaults) (ts : List Node)
    (h : bareDocB ts = true) :
    ∃ tabs, odsGenerator d (Node.nList ts) = some (d, tabs)
      ∧ tabs.length = ts.length
      ∧ (∀ (i : Nat) (hi : i < tabs.length),
          (tabs.get ⟨i, hi⟩).name = "Tab " ++ toString (i + 1))
      ∧ tabs.map (fun tb => tb.rows.map (fun r => r.cells.map (fun c => c.value)))
          = ts.map tabCellValues := by
  obtain ⟨st2, tabs, heq, hlen, hnames, hv, _⟩ :=
    parseTables_bare ts ⟨d, DEFAULT_STYLES, ⟨[], []⟩, [], 0⟩ (by simpa [bareDocB] using h)
  refine ⟨tabs, ?_, hlen, ?_, hv⟩
  · simp [odsGenerator, parse, split, lookupOpt, updateDefaults, parseUserStyles,
      asList, heq]
  · intro i hi
    simpa using hnames i hi

/-- C6 witness: bare_doc_roundtrip at the round-trip scenario of the spec,
one tab of two rows. -/
theorem bare_doc_roundtrip_witness :
    bareDocB sampleTabs = true
    ∧ ∃ tabs, odsGenerator DEFAULTS_DICT (Node.nList sampleTabs) =
          some (DEFAULTS_DICT, tabs)
        ∧ tabs.length = sampleTabs.length
        ∧ (∀ (i : Nat) (hi : i < tabs.length),
            (tabs.get ⟨i, hi⟩).name = "Tab " ++ toString (i + 1))
        ∧ tabs.map (fun tb => tb.rows.map (fun r => r.cells.map (fun c => c.value)))
            = sampleTabs.map tabCellValues :=
  ⟨rfl, bare_doc_roundtrip DEFAULTS_DICT sampleTabs rfl⟩

/-- C1: the defaults record is NOT re-created per parse.  Line 668 binds
self.defaults to the module-level DEFAULTS_DICT by reference and line 765
updates it in place, so the "defaults" option of a first parse leaks into
the next parse of the same process: after parsing a document that overrides
style_str to "center", a second plain document resolves its string cell to
"center" instead of the built-in "left", and the module record stays
mutated. -/
theorem defaults_leak_across_parses :
    odsGenerator DEFAULTS_DICT docWithOverride = some (leakedDefaults, [])
    ∧ firstCellStyle (odsGenerator leakedDefaults plainDoc) = some "center"
    ∧ (odsGenerator leakedDefaults plainDoc).map (fun r => r.1) = some leakedDefaults
    ∧ DEFAULTS_DICT.style_str = "left"
    ∧ leakedDefaults.style_str = "center"
    ∧ ("center" : String) ≠ "left" :=
  ⟨rfl, rfl, rfl, rfl, rfl, by decide⟩

end OdsGen
